import Mathlib

/-
Shallow embedding of the dufs HTTP file server core (src/server.rs) and
proofs about its request-handling engine.

Scope notes for the embedding:
* Strings from requests and file names are modelled at ASCII scope: Rust's
  byte indexing, `to_lowercase`, and UTF-8 decoding coincide with the
  per-character model used here on ASCII data, and no claim depends on
  non-ASCII input.  Where a definition narrows scope this is stated in its
  doc comment.
* External collaborator crates (base64 decoding plus UTF-8 validation of the
  credential, and MIME guessing) are passed as function parameters.
* The filesystem is modelled as a finite association list from resolved
  absolute paths (component lists) to entry records; each record carries the
  outcomes of the fallible probes the code performs (`symlink_metadata`,
  `metadata`, `modified()`, `File::open`), so racy per-probe failures are
  expressible.
-/

namespace Dufs

/-! ### Character and string helpers -/

/-- Lowercase a character sequence; models Rust `str::to_lowercase` at ASCII
scope (`Char.toLower` lowercases exactly the ASCII uppercase range). -/
def lowerList (l : List Char) : List Char := l.map Char.toLower

/-- Substring containment on character lists; models Rust `str::contains`
with a string pattern (the empty pattern is contained in every string). -/
def containsSub : List Char → List Char → Bool
  | [], pat => pat.isEmpty
  | c :: t, pat => pat.isPrefixOf (c :: t) || containsSub t pat

/-- Split a character list at every occurrence of `c`; models Rust
`str::split(c)`, which yields at least one (possibly empty) token and
never yields a token containing the separator. -/
def splitCh (c : Char) : List Char → List (List Char)
  | [] => [[]]
  | x :: r =>
    let rest := splitCh c r
    if x = c then [] :: rest
    else
      match rest with
      | [] => [[x]]
      | h :: t => (x :: h) :: t

/-- Rust `str::split(sep)` lifted to `String`. -/
def strSplitCh (s : String) (c : Char) : List String :=
  (splitCh c s.data).map (fun l => String.mk l)

/-- Rust `str::starts_with` (ASCII scope: byte order = character order). -/
def strStarts (s t : String) : Bool := t.data.isPrefixOf s.data

/-- Rust `str::ends_with` (ASCII scope). -/
def strEnds (s t : String) : Bool := t.data.isSuffixOf s.data

/-- Rust byte slicing `&s[i..]`: `none` models the panic raised when `i`
exceeds the byte length (ASCII scope: byte index = character index, every
index is a char boundary). -/
def sliceFrom (s : String) (i : Nat) : Option String :=
  if i ≤ s.data.length then some (String.mk (s.data.drop i)) else none

/-- Value of a hexadecimal digit character. -/
def hexVal (c : Char) : Option Nat :=
  if '0' ≤ c ∧ c ≤ '9' then some (c.toNat - '0'.toNat)
  else if 'a' ≤ c ∧ c ≤ 'f' then some (c.toNat - 'a'.toNat + 10)
  else if 'A' ≤ c ∧ c ≤ 'F' then some (c.toNat - 'A'.toNat + 10)
  else none

/-- Models `percent_encoding::percent_decode(..).decode_utf8()`: a valid
`%XX` escape becomes the byte `XX`, a malformed escape is passed through
verbatim, and the result must be valid UTF-8.  ASCII scope: a decoded byte
`≥ 0x80` would begin a multi-byte UTF-8 sequence, which is not modelled
(treated as a decoding failure); no claim depends on non-ASCII paths. -/
def percentDecodeList : List Char → Option (List Char)
  | [] => some []
  | '%' :: a :: b :: r2 =>
    match hexVal a, hexVal b with
    | some x, some y =>
      if 16 * x + y < 128 then
        (percentDecodeList r2).map (fun l => Char.ofNat (16 * x + y) :: l)
      else none
    | _, _ => (percentDecodeList (a :: b :: r2)).map (fun l => '%' :: l)
  | '%' :: rest => (percentDecodeList rest).map (fun l => '%' :: l)
  | c :: rest => (percentDecodeList rest).map (fun l => c :: l)

/-- Join path segments with `'/'` separators (character-list level). -/
def joinComps : List (List Char) → List Char
  | [] => []
  | [s] => s
  | s :: t => s ++ '/' :: joinComps t

/-- Models `normalize_path` on the non-Windows branch: render a relative
path's components joined by `/` (Rust renders a `PathBuf` via `to_str`). -/
def normalize_path (comps : List String) : String :=
  String.mk (joinComps (comps.map String.data))

/-! ### Path model (non-Windows branch of the source) -/

/-- One component of a Rust `Path`, as produced by `Path::components`:
`..` survives as `parentDir`; `.` and empty segments are normalized away. -/
inductive Comp where
  | parentDir
  | normal (s : String)
  deriving DecidableEq

/-- A Rust path as its component view: an absolute-path flag (the `RootDir`
component) plus the remaining components in order. -/
structure RPath where
  absolute : Bool
  comps : List Comp
  deriving DecidableEq

/-- Classify one textual segment the way `Path::components` does. -/
def compOfSeg (seg : List Char) : Option Comp :=
  if seg = [] then none
  else if seg = ['.'] then none
  else if seg = ['.', '.'] then some .parentDir
  else some (.normal (String.mk seg))

/-- Parse a decoded path string into its component view.  (A leading `.` of
a relative path is kept by Rust but normalized away after joining under the
root; it is dropped here, which agrees with every post-join component
view the code inspects.) -/
def parseRel (cs : List Char) : RPath :=
  { absolute := cs.head? == some '/',
    comps := (splitCh '/' cs).filterMap compOfSeg }

/-- Rust `Path::join`: an absolute argument replaces the base entirely,
otherwise the components are appended.  No `..`/`.` normalization occurs. -/
def joinPath (base rel : RPath) : RPath :=
  if rel.absolute then rel
  else { absolute := base.absolute, comps := base.comps ++ rel.comps }

/-- Rust `Path::starts_with`: whole-component prefix test on the component
views (a `..` component is an ordinary component for this test). -/
def pathStarts (p base : RPath) : Bool :=
  (p.absolute == base.absolute) && base.comps.isPrefixOf p.comps

/-- `InnerService::extract_path`: strip the leading `/` from the request
path (byte slice `path[1..]`), percent-decode it, join it under the
configured root (the `slashes_switched` step is the identity on the
non-Windows branch), and accept the joined path only if it still starts
with the root. -/
def extract_path (root : RPath) (path : String) : Option RPath :=
  (percentDecodeList (path.data.drop 1)).bind fun decoded =>
    let full := joinPath root (parseRel decoded)
    if pathStarts full root then some full else none

/-- Resolve `..` components lexically, the way the operating system resolves
a symlink-free path: a parent step pops the last component (at the
filesystem root it is a no-op, as on POSIX). -/
def resolveComps : List String → List Comp → List String
  | acc, [] => acc
  | acc, .parentDir :: t => resolveComps acc.dropLast t
  | acc, .normal s :: t => resolveComps (acc ++ [s]) t

/-- The filesystem object an absolute path denotes, as a resolved component
list. -/
def resolveAbs (p : RPath) : List String := resolveComps [] p.comps

/-! ### Requests, configuration, auth guard -/

/-- HTTP methods distinguished by the dispatcher; `other` stands for every
remaining method (all of which reach the final `_` arm). -/
inductive Method where
  | GET
  | OPTIONS
  | PUT
  | DELETE
  | other
  deriving DecidableEq

/-- The configuration the dispatcher reads (`Args`): root path, optional
credential, anonymous-read flag, read-only flag. -/
structure Args where
  path : RPath
  auth : Option String
  no_auth_read : Bool
  readonly : Bool

/-- `InnerService::auth_guard`.  `b64` models the external base64 decoder
composed with UTF-8 validation (`base64::decode` then `String::from_utf8`).
The header value is split on spaces and the first two tokens are matched
against the literal pattern of the source: the scheme token must equal
`"Basic "` — including its trailing space, exactly as written in the
source pattern `Some((Some("Basic "), Some(tail)))`. -/
def auth_guard (b64 : String → Option String) (args : Args) (method : Method)
    (authHeader : Option String) : Bool :=
  match args.auth with
  | none => true
  | some auth =>
    match authHeader with
    | some v =>
      let parts := strSplitCh v ' '
      match parts.head?, parts.tail.head? with
      | some scheme, some tail =>
        if scheme == "Basic " then ((b64 tail).map (fun d => d == auth)).getD false
        else false
      | _, _ => false
    | none => args.no_auth_read && method == .GET

/-! ### Filesystem model -/

/-- Kind of a filesystem object after following symlinks. -/
inductive FKind where
  | file
  | dir
  deriving DecidableEq

/-- Kind of a filesystem object as seen by `symlink_metadata` (no link
following). -/
inductive SKind where
  | file
  | dir
  | symlink
  deriving DecidableEq

/-- One filesystem object together with the outcomes of the fallible probes
the code performs on it.  `target` is the link-following stat kind for a
symlink (`none` = broken link); `lstatOk` is whether a `symlink_metadata`
probe succeeds; `mtime` is `modified()` in epoch milliseconds (`none` =
unavailable); `openOk` is whether `File::open` succeeds. -/
structure FsEntry where
  selfKind : SKind
  target : Option FKind
  lstatOk : Bool
  mtime : Option Nat
  size : Nat
  openOk : Bool
  deriving DecidableEq

/-- A resolved absolute path, as a component list. -/
abbrev Key := List String

/-- The filesystem: a finite map from resolved paths to entries. -/
abbrev Fs := List (Key × FsEntry)

def lookupFs (fs : Fs) (k : Key) : Option FsEntry :=
  (fs.find? (fun p => p.1 == k)).map (fun p => p.2)

/-- Result of a successful `fs::metadata` call. -/
structure FsMeta where
  isDir : Bool
  mtime : Option Nat
  size : Nat
  deriving DecidableEq

/-- `fs::metadata` on one entry: follows symlinks, so it fails on a broken
link. -/
def statE (e : FsEntry) : Option FsMeta :=
  match e.selfKind with
  | .file => some { isDir := false, mtime := e.mtime, size := e.size }
  | .dir => some { isDir := true, mtime := e.mtime, size := e.size }
  | .symlink => e.target.map (fun t => { isDir := t == .dir, mtime := e.mtime, size := e.size })

/-- `fs::metadata` by path. -/
def statFs (fs : Fs) (k : Key) : Option FsMeta := (lookupFs fs k).bind statE

/-- `fs::symlink_metadata` on one entry: succeeds (with the entry's own
kind) exactly when the probe outcome recorded on the entry is a success. -/
def lstatE (e : FsEntry) : Option SKind :=
  if e.lstatOk then some e.selfKind else none

/-- The entries `async_walkdir::WalkDir` yields for a directory: every
recorded object strictly below it. -/
def walkFs (fs : Fs) (dir : Key) : Fs :=
  fs.filter (fun p => dir.isPrefixOf p.1 && decide (dir.length < p.1.length))

/-- The entries `fs::read_dir` yields: immediate children only. -/
def childrenFs (fs : Fs) (dir : Key) : Fs :=
  fs.filter (fun p => dir.isPrefixOf p.1 && (p.1.length == dir.length + 1))

/-! ### Entry descriptors and their order -/

/-- `PathType`, in source declaration order (the derived Rust `Ord` orders
variants by declaration position). -/
inductive PathType where
  | Dir
  | SymlinkDir
  | File
  | SymlinkFile
  deriving DecidableEq

/-- `PathItem`: one listing entry. -/
structure PathItem where
  path_type : PathType
  name : String
  mtime : Nat
  size : Option Nat
  deriving DecidableEq

/-- Variant position of a `PathType`, giving the derived Rust order
`Dir < SymlinkDir < File < SymlinkFile`. -/
def pathTypeRank : PathType → Nat
  | .Dir => 0
  | .SymlinkDir => 1
  | .File => 2
  | .SymlinkFile => 3

/-- Rust `Option<u64>` order: `None` below every `Some`. -/
def sizeKey : Option Nat → WithBot Nat
  | none => ⊥
  | some n => (n : WithBot Nat)

/-- Sort key realizing the derived `Ord for PathItem`: lexicographic over
the fields in declaration order (kind, name, mtime, size).  The name is
compared as its character sequence — Rust compares UTF-8 bytes, and UTF-8
byte order coincides with scalar-value order. -/
def itemKey (a : PathItem) : Nat ×ₗ (List Char ×ₗ (Nat ×ₗ WithBot Nat)) :=
  toLex (pathTypeRank a.path_type, toLex (a.name.data, toLex (a.mtime, sizeKey a.size)))

/-- The derived `≤` of `Ord for PathItem`, as a boolean comparator. -/
def itemLe (a b : PathItem) : Bool := decide (itemKey a ≤ itemKey b)

/-- `Vec::sort_unstable` under the derived order (a sorted permutation;
since the order is antisymmetric the result is unique, so instability is
unobservable). -/
def sortPaths (l : List PathItem) : List PathItem := l.mergeSort itemLe

/-- `to_pathitem`: probe `metadata` and `symlink_metadata` (both must
succeed), require a readable modification time, classify the kind from
(is_symlink, is_dir), and name the entry by its path relative to the
listing base. -/
def to_pathitem (base : Key) (k : Key) (e : FsEntry) : Option PathItem :=
  match statE e, lstatE e with
  | some meta, some k2 =>
    match meta.mtime with
    | some mt =>
      let isSym := k2 == SKind.symlink
      let pt : PathType :=
        match isSym, meta.isDir with
        | true, true => .SymlinkDir
        | false, true => .Dir
        | true, false => .SymlinkFile
        | false, false => .File
      some { path_type := pt,
             name := normalize_path (k.drop base.length),
             mtime := mt,
             size := match pt with
               | .Dir | .SymlinkDir => none
               | .File | .SymlinkFile => some meta.size }
    | none => none
  | _, _ => none

/-! ### Responses -/

/-- The JSON payload embedded in the listing page. -/
structure IndexData where
  breadcrumb : String
  paths : List PathItem
  readonly : Bool
  deriving DecidableEq

/-- Response bodies the handlers produce.  A ZIP body records the entry
names written to the stream and whether the producer completed (a `false`
flag models the logged producer error and the truncated stream). -/
inductive RBody where
  | empty
  | indexPage (data : IndexData)
  | fileStream
  | zipStream (names : List String) (completed : Bool)
  | errText (msg : String)
  deriving DecidableEq

/-- An HTTP response: status plus the headers and body forms the code
emits. -/
structure Resp where
  status : Nat := 200
  etag : Option String := none
  lastModified : Option Nat := none
  wwwAuth : Bool := false
  contentType : Option String := none
  body : RBody := .empty
  deriving DecidableEq

/-- Breadcrumb of `send_index`: the listing path relative to the root's
parent (relative to nothing when the root is the filesystem root, whose
`parent()` is `None`). -/
def breadcrumbOf (rootRes : Key) (k : Key) : String :=
  match rootRes with
  | [] => normalize_path k
  | _ => normalize_path (k.drop (rootRes.length - 1))

/-- `send_index`: sort the collected items with the derived order and embed
them, the breadcrumb and the read-only flag in the listing page. -/
def send_index (args : Args) (k : Key) (items : List PathItem) : Resp :=
  { status := 200,
    body := .indexPage
      { breadcrumb := breadcrumbOf (resolveAbs args.path) k,
        paths := sortPaths items,
        readonly := args.readonly } }

/-! ### Handlers -/

/-- `handle_ls_dir`: with `exist = true` read the directory (an error — the
path is missing or not a directory — propagates), keeping each child whose
`to_pathitem` succeeds; with `exist = false` render the empty listing. -/
def handle_ls_dir (args : Args) (fs : Fs) (k : Key) (exist : Bool) :
    Except String Resp :=
  if exist then
    match statFs fs k with
    | some m =>
      if m.isDir then
        .ok (send_index args k
          ((childrenFs fs k).filterMap (fun p => to_pathitem k p.1 p.2)))
      else .error "read_dir failed"
    | none => .error "read_dir failed"
  else .ok (send_index args k [])

/-- `entry.file_name()`: the last path component (`to_string_lossy` is the
identity on the valid Unicode names modelled here). -/
def fileNameOf (k : Key) : String := k.getLast?.getD ""

/-- Body of the `handle_query_dir` walk: keep an entry when its lowercased
file name contains the lowercased query term, its `symlink_metadata` probe
succeeds, and `to_pathitem` succeeds — in exactly that source order. -/
def queryItems (fs : Fs) (k : Key) (query : String) : List PathItem :=
  (walkFs fs k).filterMap (fun p =>
    if !(containsSub (lowerList (fileNameOf p.1).data) (lowerList query.data)) then none
    else if (lstatE p.2).isNone then none
    else to_pathitem k p.1 p.2)

/-- `handle_query_dir`: recursive filtered search rendered through
`send_index`. -/
def handle_query_dir (args : Args) (fs : Fs) (k : Key) (query : String) : Resp :=
  send_index args k (queryItems fs k query)

/-- Name of a ZIP entry: the path relative to the zipped directory
(`strip_prefix(dir)` then `to_str`, which succeeds on the valid Unicode
names modelled here). -/
def relNameOf (dir k : Key) : String := normalize_path (k.drop dir.length)

/-- Producer loop of `dir_zip` over the walk entries: a failed
`symlink_metadata` probe skips the entry and continues; a non-regular entry
(directory or symlink) is skipped; a regular file is opened and written —
an open failure aborts the producer (`?`), leaving the names already
written and an incomplete stream. -/
def dirZipGo (dir : Key) : Fs → List String × Bool
  | [] => ([], true)
  | p :: rest =>
    match lstatE p.2 with
    | none => dirZipGo dir rest
    | some sk =>
      if sk == SKind.file then
        if p.2.openOk then
          let r := dirZipGo dir rest
          (relNameOf dir p.1 :: r.1, r.2)
        else ([], false)
      else dirZipGo dir rest

/-- `dir_zip`: names written to the ZIP stream for a directory, plus
whether the producer reached the archive trailer. -/
def dir_zip (fs : Fs) (dir : Key) : List String × Bool := dirZipGo dir (walkFs fs dir)

/-- `handle_zip_dir`: the response streams whatever the spawned producer
writes. -/
def handle_zip_dir (fs : Fs) (k : Key) : Resp :=
  { status := 200, body := .zipStream (dir_zip fs k).1 (dir_zip fs k).2 }

/-- `handle_send_file`: open the file and stat it (either failure
propagates).  With a readable modification time, build the validator
`"<epoch-millis>-<size>"` (quoted, as an `ETag`), decide freshness —
`If-None-Match` (modelled as the precondition predicate the external
`headers` crate evaluates against the validator) takes precedence over
`If-Modified-Since` (fresh when the file is not strictly newer) — attach
the validator headers, and answer `304` with no body when fresh; otherwise
guess a content type (`mimeOf`, the external guesser) and stream the file. -/
def handle_send_file (mimeOf : String → Option String) (fs : Fs) (k : Key)
    (inm : Option (String → Bool)) (ims : Option Nat) : Except String Resp :=
  match lookupFs fs k with
  | none => .error "open failed"
  | some e =>
    if !e.openOk then .error "open failed"
    else
      match statE e with
      | none => .error "metadata failed"
      | some m =>
        match m.mtime with
        | some ts =>
          let etag := "\"" ++ toString ts ++ "-" ++ toString m.size ++ "\""
          let fresh : Bool :=
            match inm with
            | some passes => !(passes etag)
            | none =>
              match ims with
              | some t => !(decide (t < ts))
              | none => false
          let r : Resp := { lastModified := some ts, etag := some etag }
          if fresh then .ok { r with status := 304 }
          else .ok { r with contentType := mimeOf (fileNameOf k), body := .fileStream }
        | none => .ok { contentType := mimeOf (fileNameOf k), body := .fileStream }

/-- A directory entry as created by `create_dir_all` in the upload model. -/
def mkDirEntry : FsEntry :=
  { selfKind := .dir, target := none, lstatOk := true, mtime := some 0,
    size := 0, openOk := true }

/-- A file entry as created by `File::create` in the upload model. -/
def mkFileEntry (sz : Nat) : FsEntry :=
  { selfKind := .file, target := none, lstatOk := true, mtime := some 0,
    size := sz, openOk := true }

def removeKey (fs : Fs) (k : Key) : Fs := fs.filter (fun p => !(p.1 == k))

def insertEntry (fs : Fs) (k : Key) (e : FsEntry) : Fs := removeKey fs k ++ [(k, e)]

def ancestorsOf (k : Key) : List Key :=
  (List.range k.length).map (fun i => k.take (i + 1))

/-- `fs::create_dir_all` in the model: create every missing ancestor. -/
def ensureDirs (fs : Fs) (k : Key) : Fs :=
  (ancestorsOf k).foldl
    (fun f d => if (lookupFs f d).isSome then f else insertEntry f d mkDirEntry) fs

/-- `handle_upload`: a path with no parent, or a parent that stats to a
non-directory, is `Forbidden`; a missing parent is created; then the body
is streamed to a newly created file.  The byte content and the `?unzip`
extraction step are not modelled (no claim depends on them); the write is
modelled as inserting a fresh file entry of the body's size. -/
def handle_upload (fs : Fs) (k : Key) (bodySize : Nat) : Except String Resp × Fs :=
  match k with
  | [] => (.ok { status := 403 }, fs)
  | _ =>
    let parent := k.dropLast
    let parentOk :=
      match statFs fs parent with
      | some m => m.isDir
      | none => true
    if parentOk then
      (.ok {}, insertEntry (ensureDirs fs parent) k (mkFileEntry bodySize))
    else (.ok { status := 403 }, fs)

/-- `handle_delete`: a directory is removed recursively (`remove_dir_all`),
a file singly (`remove_file`). -/
def handle_delete (fs : Fs) (k : Key) (isDir : Bool) : Except String Resp × Fs :=
  if isDir then (.ok {}, fs.filter (fun p => !(k.isPrefixOf p.1)))
  else (.ok {}, removeKey fs k)

/-- One incoming request, with the headers the code reads.  `inm` models a
present `If-None-Match` header as the precondition predicate the external
`headers` crate evaluates; `ims` models `If-Modified-Since` in epoch
milliseconds. -/
structure Req where
  method : Method
  path : String
  query : String
  authHeader : Option String
  inm : Option (String → Bool)
  ims : Option Nat
  bodySize : Nat

/-- `InnerService::handle`: auth guard first, then path extraction (`403`
on escape), then the method/state/query dispatch table of the source, in
source order.  The result is `none` when the code panics (the `&query[3..]`
byte slice), `some (.error e, fs)` when a handler error propagates to the
outer boundary, and `some (.ok resp, fs)` otherwise; the returned `Fs` is
the filesystem after the request. -/
def handle (b64 : String → Option String) (mimeOf : String → Option String)
    (args : Args) (fs : Fs) (req : Req) : Option (Except String Resp × Fs) :=
  if !(auth_guard b64 args req.method req.authHeader) then
    some (.ok { status := 401, wwwAuth := true }, fs)
  else
    match extract_path args.path req.path with
    | none => some (.ok { status := 403 }, fs)
    | some fp =>
      let k := resolveAbs fp
      let meta := statFs fs k
      let isMiss := meta.isNone
      let isDir := (meta.map (fun m => m.isDir)).getD false
      match req.method with
      | .GET =>
        if isDir && (req.query == "zip") then
          some (.ok (handle_zip_dir fs k), fs)
        else if isDir && strStarts req.query "q=" then
          match sliceFrom req.query 3 with
          | none => none
          | some term => some (.ok (handle_query_dir args fs k term), fs)
        else if !isDir && !isMiss then
          some (handle_send_file mimeOf fs k req.inm req.ims, fs)
        else if isMiss && strEnds req.path "/" then
          some (handle_ls_dir args fs k false, fs)
        else
          some (handle_ls_dir args fs k true, fs)
      | .OPTIONS => some (.ok { status := 204 }, fs)
      | .PUT =>
        if args.readonly then some (.ok { status := 403 }, fs)
        else some (handle_upload fs k req.bodySize)
      | .DELETE =>
        if !isMiss && args.readonly then some (.ok { status := 403 }, fs)
        else if !isMiss then some (handle_delete fs k isDir)
        else some (.ok { status := 404 }, fs)
      | .other => some (.ok { status := 404 }, fs)

/-- `InnerService::call`: the outer boundary converting a propagated
handler error into a `500` response carrying the error text. -/
def callS (b64 : String → Option String) (mimeOf : String → Option String)
    (args : Args) (fs : Fs) (req : Req) : Option (Resp × Fs) :=
  (handle b64 mimeOf args fs req).map (fun pr =>
    (match pr.1 with
     | .ok r => r
     | .error e => { status := 500, body := .errText e }, pr.2))

/-! ### Derived notions used by the claims -/

/-- The entry descriptors embedded in a listing response. -/
def indexPaths (r : Resp) : List PathItem :=
  match r.body with
  | .indexPage d => d.paths
  | _ => []

/-- A listing response contains an entry of the given name. -/
def inIndex (r : Resp) (n : String) : Prop := ∃ it ∈ indexPaths r, it.name = n

/-- Well-formed filesystem: no duplicate paths, and every path component is
a nonempty string without a separator (as on a real filesystem). -/
def wellFormedFs (fs : Fs) : Prop :=
  (fs.map (fun p => p.1)).Nodup ∧ ∀ p ∈ fs, ∀ s ∈ p.1, s ≠ "" ∧ '/' ∉ s.data

deriving instance DecidableEq for Except

instance (r : Resp) (n : String) : Decidable (inIndex r n) :=
  decidable_of_iff (∃ it ∈ indexPaths r, it.name = n) Iff.rfl

instance (fs : Fs) : Decidable (wellFormedFs fs) := by
  unfold wellFormedFs; infer_instance

/-! ### Concrete sample data used to evaluate the model -/

/-- A sample configured root, `/srv/data`. -/
def exRoot : RPath := ⟨true, [.normal "srv", .normal "data"]⟩

/-- A sample external base64-and-UTF-8 decoder: `"dXNlcjpwYXNz"` is the
base64 encoding of `"user:pass"`. -/
def exB64 : String → Option String :=
  fun s => if s == "dXNlcjpwYXNz" then some "user:pass" else none

/-- A sample MIME guesser that never guesses. -/
def exMime : String → Option String := fun _ => none

/-- A healthy directory entry. -/
def exDirE : FsEntry := ⟨.dir, none, true, some 5, 0, true⟩

/-- A healthy regular file entry. -/
def exFileE : FsEntry := ⟨.file, none, true, some 1234, 10, true⟩

/-- A broken symlink: `symlink_metadata` succeeds, `metadata` fails. -/
def exLinkE : FsEntry := ⟨.symlink, none, true, some 0, 0, true⟩

/-- Sample configurations over `exRoot`. -/
def exArgs : Args := ⟨exRoot, none, false, false⟩

def exArgsRO : Args := ⟨exRoot, none, false, true⟩

def exArgsAuth : Args := ⟨exRoot, some "user:pass", true, false⟩

/-- A small tree: the root and one subdirectory `d`. -/
def exFs : Fs := [(["srv", "data"], exDirE), (["srv", "data", "d"], exDirE)]

/-- A tree whose directory `d` holds a broken symlink `link` and a healthy
file `Report.TXT`. -/
def exQFs : Fs :=
  [(["srv", "data", "d"], exDirE),
   (["srv", "data", "d", "link"], exLinkE),
   (["srv", "data", "d", "Report.TXT"], exFileE)]

/-- A tree for the archive walk: two regular files, a directory, a symlink
to a file, and a file whose `symlink_metadata` probe fails. -/
def exZFs : Fs :=
  [(["srv", "data", "d"], exDirE),
   (["srv", "data", "d", "a.txt"], exFileE),
   (["srv", "data", "d", "sub"], exDirE),
   (["srv", "data", "d", "sub", "b.txt"], exFileE),
   (["srv", "data", "d", "lnk"], ⟨.symlink, some .file, true, some 0, 3, true⟩),
   (["srv", "data", "d", "ghost"], ⟨.file, none, false, some 0, 3, true⟩)]

/-- A tree holding a file `secret` outside the root `/srv/data`. -/
def exEscFs : Fs := [(["srv", "data"], exDirE), (["srv", "secret"], exFileE)]

/-- A tree holding only the root and the file `/srv/data/f`. -/
def exSfFs : Fs := [(["srv", "data"], exDirE), (["srv", "data", "f"], exFileE)]

/-- A headerless request. -/
def exReq (m : Method) (p q : String) : Req := ⟨m, p, q, none, none, none, 0⟩

/-- The joined path `/srv/data/../secret` produced for `/../secret`. -/
def exTravP : RPath :=
  ⟨true, [.normal "srv", .normal "data", .parentDir, .normal "secret"]⟩

/-! ### Claims -/

/-- C1: the claim fails on the code.  The request path `/../secret` joins
under the root `/srv/data` to `/srv/data/../secret`; the `..` component
survives `Path::starts_with`, so `extract_path` accepts the path even
though it resolves to `/srv/secret`, outside the root — and the dispatcher
then serves that outside file with `200` rather than rejecting it with
`403`. -/
theorem c1_traversal_accepted :
    extract_path exRoot "/../secret" = some exTravP
    ∧ resolveAbs exTravP = ["srv", "secret"]
    ∧ (resolveAbs exRoot).isPrefixOf (resolveAbs exTravP) = false
    ∧ handle exB64 exMime exArgs exEscFs (exReq .GET "/../secret" "") =
        some (.ok { status := 200, etag := some "\"1234-10\"",
                    lastModified := some 1234, body := .fileStream }, exEscFs) := by
  decide

/-- C2: the claim fails on the code.  For the configured credential
`user:pass`, a request carrying exactly `Authorization: Basic` followed by
the base64 encoding of `user:pass` is rejected: the source pattern matches
the first space-split token against the literal `"Basic "` (with a trailing
space), which `split(' ')` can never produce, so the guard answers `401`
instead of passing the request. -/
theorem c2_wellformed_basic_header_rejected :
    exB64 "dXNlcjpwYXNz" = some "user:pass"
    ∧ auth_guard exB64 exArgsAuth .GET (some "Basic dXNlcjpwYXNz") = false
    ∧ handle exB64 exMime exArgsAuth exFs
        { method := .GET, path := "/d", query := "", authHeader := some "Basic dXNlcjpwYXNz",
          inm := none, ims := none, bodySize := 0 } =
        some (.ok { status := 401, wwwAuth := true }, exFs) := by
  decide

/-- C6: the claim fails on the code.  For a GET on the existing directory
`d` with query string exactly `q=` (two bytes), the dispatcher takes the
byte slice `query[3..]`, which panics (modelled as `none`): no response is
produced. -/
theorem c6_query_slice_panics :
    statFs exFs ["srv", "data", "d"] = some ⟨true, some 5, 0⟩
    ∧ strStarts "q=" "q=" = true
    ∧ sliceFrom "q=" 3 = none
    ∧ handle exB64 exMime exArgs exFs (exReq .GET "/d" "q=") = none := by
  decide

/-- C7: with the read-only flag enabled, every PUT request, and every
DELETE request on an existing path, answers `403 Forbidden` with the
filesystem returned unchanged. -/
theorem c7_readonly_put_delete_forbidden
    (b64 mimeOf : String → Option String) (args : Args) (fs : Fs) (req : Req)
    (fp : RPath)
    (hro : args.readonly = true)
    (hauth : auth_guard b64 args req.method req.authHeader = true)
    (hex : extract_path args.path req.path = some fp)
    (hm : req.method = Method.PUT ∨
          (req.method = Method.DELETE ∧ (statFs fs (resolveAbs fp)).isSome = true)) :
    handle b64 mimeOf args fs req = some (.ok { status := 403 }, fs) := by
  rcases hm with hput | ⟨hdel, hsome⟩
  · rw [hput] at hauth
    simp [handle, hauth, hex, hput, hro]
  · obtain ⟨mm, hmm⟩ := Option.isSome_iff_exists.mp hsome
    rw [hdel] at hauth
    simp [handle, hauth, hex, hdel, hro, hmm]

/-- Witness for C7 at a concrete read-only configuration: DELETE on the
existing directory `/d`. -/
theorem c7_readonly_put_delete_forbidden_witness :
    exArgsRO.readonly = true
    ∧ auth_guard exB64 exArgsRO Method.DELETE none = true
    ∧ extract_path exArgsRO.path "/d" =
        some ⟨true, [.normal "srv", .normal "data", .normal "d"]⟩
    ∧ (statFs exFs (resolveAbs ⟨true, [.normal "srv", .normal "data", .normal "d"]⟩)).isSome
        = true
    ∧ handle exB64 exMime exArgsRO exFs (exReq .DELETE "/d" "") =
        some (.ok { status := 403 }, exFs) :=
  ⟨rfl, by decide, by decide, by decide,
   c7_readonly_put_delete_forbidden exB64 exMime exArgsRO exFs (exReq .DELETE "/d" "")
     ⟨true, [.normal "srv", .normal "data", .normal "d"]⟩
     rfl (by decide) (by decide) (Or.inr ⟨rfl, by decide⟩)⟩

/-- C8: with a credential configured and no Authorization header, the
guard passes exactly when anonymous read is enabled and the method is GET;
a rejected request answers `401` with the `WWW-Authenticate` challenge,
with the same response for every filesystem and the filesystem returned
unchanged (the guard runs before any filesystem access). -/
theorem c8_missing_header_anonymous_read
    (b64 mimeOf : String → Option String) (args : Args) (fs : Fs) (req : Req)
    (a : String)
    (hc : args.auth = some a)
    (hh : req.authHeader = none) :
    auth_guard b64 args req.method req.authHeader
      = (args.no_auth_read && (req.method == Method.GET))
    ∧ ((args.no_auth_read && (req.method == Method.GET)) = false →
        handle b64 mimeOf args fs req =
          some (.ok { status := 401, wwwAuth := true }, fs)) := by
  constructor
  · simp [auth_guard, hc, hh]
  · intro hfail
    simp [handle, auth_guard, hc, hh, hfail]

/-- Witness for C8: an unauthenticated PUT under a configured credential
with anonymous read enabled. -/
theorem c8_missing_header_anonymous_read_witness :
    exArgsAuth.auth = some "user:pass"
    ∧ (exReq .PUT "/x" "").authHeader = none
    ∧ (auth_guard exB64 exArgsAuth (exReq .PUT "/x" "").method (exReq .PUT "/x" "").authHeader
         = (exArgsAuth.no_auth_read && ((exReq .PUT "/x" "").method == Method.GET))
       ∧ ((exArgsAuth.no_auth_read && ((exReq .PUT "/x" "").method == Method.GET)) = false →
           handle exB64 exMime exArgsAuth exFs (exReq .PUT "/x" "") =
             some (.ok { status := 401, wwwAuth := true }, exFs))) :=
  ⟨rfl, rfl,
   c8_missing_header_anonymous_read exB64 exMime exArgsAuth exFs (exReq .PUT "/x" "")
     "user:pass" rfl rfl⟩

/-- C4 counterexample: a GET on the missing path `/missing` (no trailing
separator) does not render an empty listing — the directory read fails and
the outer boundary answers `500` with the error text. -/
theorem c4_counterexample :
    statFs exFs ["srv", "data", "missing"] = none
    ∧ strEnds "/missing" "/" = false
    ∧ callS exB64 exMime exArgs exFs (exReq .GET "/missing" "") =
        some ({ status := 500, body := .errText "read_dir failed" }, exFs)
    ∧ callS exB64 exMime exArgs exFs (exReq .GET "/missing" "") ≠
        some (send_index exArgs ["srv", "data", "missing"] [], exFs) := by
  decide

/-- C4 as amended: for a GET whose resolved path is missing, a URL that
does not end in a separator reaches the existing-directory listing path,
whose directory read fails and surfaces as a `500` error response; only a
URL ending in a separator renders the empty listing. -/
theorem c4_missing_path_behavior
    (b64 mimeOf : String → Option String) (args : Args) (fs : Fs) (req : Req)
    (fp : RPath)
    (hauth : auth_guard b64 args req.method req.authHeader = true)
    (hex : extract_path args.path req.path = some fp)
    (hmiss : statFs fs (resolveAbs fp) = none)
    (hget : req.method = Method.GET) :
    (strEnds req.path "/" = false →
       handle b64 mimeOf args fs req = some (.error "read_dir failed", fs)
       ∧ callS b64 mimeOf args fs req =
           some ({ status := 500, body := .errText "read_dir failed" }, fs))
    ∧ (strEnds req.path "/" = true →
       handle b64 mimeOf args fs req =
         some (.ok (send_index args (resolveAbs fp) []), fs)) := by
  rw [hget] at hauth
  constructor
  · intro hslash
    have hh : handle b64 mimeOf args fs req = some (.error "read_dir failed", fs) := by
      simp [handle, hauth, hex, hget, hmiss, hslash, handle_ls_dir]
    exact ⟨hh, by simp [callS, hh]⟩
  · intro hslash
    simp [handle, hauth, hex, hget, hmiss, hslash, handle_ls_dir]

/-- Witness for C4 at the concrete missing path `/missing`. -/
theorem c4_missing_path_behavior_witness :
    auth_guard exB64 exArgs Method.GET none = true
    ∧ extract_path exArgs.path "/missing" =
        some ⟨true, [.normal "srv", .normal "data", .normal "missing"]⟩
    ∧ statFs exFs (resolveAbs ⟨true, [.normal "srv", .normal "data", .normal "missing"]⟩)
        = none
    ∧ ((strEnds (exReq .GET "/missing" "").path "/" = false →
         handle exB64 exMime exArgs exFs (exReq .GET "/missing" "") =
           some (.error "read_dir failed", exFs)
         ∧ callS exB64 exMime exArgs exFs (exReq .GET "/missing" "") =
             some ({ status := 500, body := .errText "read_dir failed" }, exFs))
       ∧ (strEnds (exReq .GET "/missing" "").path "/" = true →
         handle exB64 exMime exArgs exFs (exReq .GET "/missing" "") =
           some (.ok (send_index exArgs
             (resolveAbs ⟨true, [.normal "srv", .normal "data", .normal "missing"]⟩) []),
             exFs))) :=
  ⟨by decide, by decide, by decide,
   c4_missing_path_behavior exB64 exMime exArgs exFs (exReq .GET "/missing" "")
     ⟨true, [.normal "srv", .normal "data", .normal "missing"]⟩
     (by decide) (by decide) (by decide) rfl⟩

/-- C5: for an existing file with readable modification time, the validator
is the (quoted) string `<epoch-millis>-<size>`; a present `If-None-Match`
header alone decides freshness (`If-Modified-Since` is ignored); with no
`If-None-Match`, `If-Modified-Since` decides (fresh exactly when the file
is not strictly newer); a fresh result is `304 Not Modified` carrying the
`ETag` and `Last-Modified` headers and no body. -/
theorem c5_conditional_send_file
    (mimeOf : String → Option String) (fs : Fs) (k : Key) (e : FsEntry) (m : FsMeta)
    (ts : Nat)
    (he : lookupFs fs k = some e)
    (ho : e.openOk = true)
    (hm : statE e = some m)
    (ht : m.mtime = some ts) :
    (∀ (f : String → Bool) (i i' : Option Nat),
       handle_send_file mimeOf fs k (some f) i = handle_send_file mimeOf fs k (some f) i')
    ∧ (∀ f : String → Bool,
         f ("\"" ++ toString ts ++ "-" ++ toString m.size ++ "\"") = false →
         ∀ i : Option Nat,
           handle_send_file mimeOf fs k (some f) i =
             .ok { status := 304,
                   etag := some ("\"" ++ toString ts ++ "-" ++ toString m.size ++ "\""),
                   lastModified := some ts, body := .empty })
    ∧ (∀ f : String → Bool,
         f ("\"" ++ toString ts ++ "-" ++ toString m.size ++ "\"") = true →
         ∀ i : Option Nat,
           handle_send_file mimeOf fs k (some f) i =
             .ok { status := 200,
                   etag := some ("\"" ++ toString ts ++ "-" ++ toString m.size ++ "\""),
                   lastModified := some ts, contentType := mimeOf (fileNameOf k),
                   body := .fileStream })
    ∧ (∀ t : Nat, ts ≤ t →
         handle_send_file mimeOf fs k none (some t) =
           .ok { status := 304,
                 etag := some ("\"" ++ toString ts ++ "-" ++ toString m.size ++ "\""),
                 lastModified := some ts, body := .empty })
    ∧ (∀ t : Nat, t < ts →
         handle_send_file mimeOf fs k none (some t) =
           .ok { status := 200,
                 etag := some ("\"" ++ toString ts ++ "-" ++ toString m.size ++ "\""),
                 lastModified := some ts, contentType := mimeOf (fileNameOf k),
                 body := .fileStream }) := by
  refine ⟨?_, ?_, ?_, ?_, ?_⟩
  · intro f i i'
    simp [handle_send_file, he, ho, hm, ht]
  · intro f hf i
    simp [handle_send_file, he, ho, hm, ht, hf]
  · intro f hf i
    simp [handle_send_file, he, ho, hm, ht, hf]
  · intro t hts
    have hlt : ¬ (t < ts) := by omega
    simp [handle_send_file, he, ho, hm, ht, hlt]
  · intro t hts
    simp [handle_send_file, he, ho, hm, ht, hts]

/-- Witness for C5: the file `/srv/data/f` with mtime 1234 and size 10. -/
theorem c5_conditional_send_file_witness :
    lookupFs exSfFs ["srv", "data", "f"] = some exFileE
    ∧ exFileE.openOk = true
    ∧ statE exFileE = some ⟨false, some 1234, 10⟩
    ∧ (⟨false, some 1234, 10⟩ : FsMeta).mtime = some 1234
    ∧ (∀ (f : String → Bool) (i i' : Option Nat),
         handle_send_file exMime exSfFs ["srv", "data", "f"] (some f) i =
           handle_send_file exMime exSfFs ["srv", "data", "f"] (some f) i')
    ∧ (∀ t : Nat, 1234 ≤ t →
         handle_send_file exMime exSfFs ["srv", "data", "f"] none (some t) =
           .ok { status := 304,
                 etag := some ("\"" ++ toString 1234 ++ "-" ++
                   toString (⟨false, some 1234, 10⟩ : FsMeta).size ++ "\""),
                 lastModified := some 1234, body := .empty }) :=
  ⟨by decide, rfl, by decide, rfl,
   (c5_conditional_send_file exMime exSfFs ["srv", "data", "f"] exFileE
     ⟨false, some 1234, 10⟩ 1234 (by decide) rfl (by decide) rfl).1,
   (c5_conditional_send_file exMime exSfFs ["srv", "data", "f"] exFileE
     ⟨false, some 1234, 10⟩ 1234 (by decide) rfl (by decide) rfl).2.2.2.1⟩

/-- The producer loop, when every included regular file opens successfully,
writes exactly the lstat-probed regular files in walk order and completes. -/
theorem dirZipGo_complete (dir : Key) :
    ∀ l : Fs,
      (∀ p ∈ l, p.2.lstatOk = true → p.2.selfKind = SKind.file → p.2.openOk = true) →
      dirZipGo dir l =
        ((l.filter (fun p => p.2.lstatOk && (p.2.selfKind == SKind.file))).map
          (fun p => relNameOf dir p.1), true) := by
  intro l
  induction l with
  | nil => intro _; rfl
  | cons p rest ih =>
    intro h
    have hrest := ih (fun q hq h1 h2 => h q (List.mem_cons_of_mem _ hq) h1 h2)
    by_cases hok : p.2.lstatOk
    · by_cases hf : p.2.selfKind = SKind.file
      · have hopen := h p (List.mem_cons_self _ _) hok hf
        simp [dirZipGo, lstatE, hok, hf, hopen, hrest, List.filter_cons]
      · simp [dirZipGo, lstatE, hok, hf, hrest, List.filter_cons]
    · simp [dirZipGo, lstatE, hok, hrest, List.filter_cons]

/-- C9: provided every regular file reached by the walk opens successfully,
the ZIP stream contains one entry per lstat-probed regular file under the
directory, named by its relative path, and nothing else — in particular no
entry for a symlink or a directory — and an entry whose metadata probe
fails is skipped without aborting the walk (the producer still completes). -/
theorem c9_zip_regular_files
    (fs : Fs) (dir : Key)
    (hopen : ∀ p ∈ walkFs fs dir, p.2.lstatOk = true → p.2.selfKind = SKind.file →
       p.2.openOk = true) :
    dir_zip fs dir =
      (((walkFs fs dir).filter (fun p => p.2.lstatOk && (p.2.selfKind == SKind.file))).map
         (fun p => relNameOf dir p.1), true)
    ∧ (∀ n : String,
         n ∈ (dir_zip fs dir).1 ↔
           ∃ p ∈ walkFs fs dir, p.2.lstatOk = true ∧ p.2.selfKind = SKind.file
             ∧ relNameOf dir p.1 = n) := by
  have h1 : dir_zip fs dir =
      (((walkFs fs dir).filter (fun p => p.2.lstatOk && (p.2.selfKind == SKind.file))).map
         (fun p => relNameOf dir p.1), true) :=
    dirZipGo_complete dir (walkFs fs dir) hopen
  refine ⟨h1, ?_⟩
  intro n
  rw [show (dir_zip fs dir).1 = _ from congrArg Prod.fst h1]
  simp only [List.mem_map, List.mem_filter, Bool.and_eq_true, beq_iff_eq]
  constructor
  · rintro ⟨p, ⟨hp, hok, hf⟩, hn⟩
    exact ⟨p, hp, hok, hf, hn⟩
  · rintro ⟨p, hp, hok, hf, hn⟩
    exact ⟨p, ⟨hp, hok, hf⟩, hn⟩

/-- Witness for C9 on the sample tree: the stream contains exactly `a.txt`
and `sub/b.txt`, skipping the directory, the symlink and the probe-failed
file, and completes. -/
theorem c9_zip_regular_files_witness :
    (∀ p ∈ walkFs exZFs ["srv", "data", "d"],
       p.2.lstatOk = true → p.2.selfKind = SKind.file → p.2.openOk = true)
    ∧ (dir_zip exZFs ["srv", "data", "d"] =
        (((walkFs exZFs ["srv", "data", "d"]).filter
            (fun p => p.2.lstatOk && (p.2.selfKind == SKind.file))).map
           (fun p => relNameOf ["srv", "data", "d"] p.1), true)
       ∧ (∀ n : String,
            n ∈ (dir_zip exZFs ["srv", "data", "d"]).1 ↔
              ∃ p ∈ walkFs exZFs ["srv", "data", "d"],
                p.2.lstatOk = true ∧ p.2.selfKind = SKind.file
                  ∧ relNameOf ["srv", "data", "d"] p.1 = n))
    ∧ (dir_zip exZFs ["srv", "data", "d"]).1 = ["a.txt", "sub/b.txt"] :=
  ⟨by decide, c9_zip_regular_files exZFs ["srv", "data", "d"] (by decide), by decide⟩

/-- The variant rank determines the variant. -/
theorem pathTypeRank_inj {a b : PathType} (h : pathTypeRank a = pathTypeRank b) :
    a = b := by
  cases a <;> cases b <;> simp_all [pathTypeRank]

/-- The size key determines the size. -/
theorem sizeKey_inj {a b : Option Nat} (h : sizeKey a = sizeKey b) : a = b := by
  cases a <;> cases b <;> simp_all [sizeKey]

/-- The sort key determines the item: the key lists every field. -/
theorem itemKey_inj {a b : PathItem} (h : itemKey a = itemKey b) : a = b := by
  obtain ⟨pt1, n1, mt1, sz1⟩ := a
  obtain ⟨pt2, n2, mt2, sz2⟩ := b
  simp only [itemKey, toLex_inj, Prod.mk.injEq] at h
  obtain ⟨h1, h2, h3, h4⟩ := h
  simp only [PathItem.mk.injEq]
  exact ⟨pathTypeRank_inj h1, String.ext h2, h3, sizeKey_inj h4⟩

theorem itemLe_trans :
    ∀ (a b c : PathItem), itemLe a b = true → itemLe b c = true → itemLe a c = true := by
  intro a b c h1 h2
  simp only [itemLe, decide_eq_true_eq] at h1 h2 ⊢
  exact le_trans h1 h2

theorem itemLe_total : ∀ (a b : PathItem), (itemLe a b || itemLe b a) = true := by
  intro a b
  simp only [itemLe, Bool.or_eq_true, decide_eq_true_eq]
  exact le_total _ _

theorem itemLe_antisymm {a b : PathItem}
    (h1 : itemLe a b = true) (h2 : itemLe b a = true) : a = b := by
  simp only [itemLe, decide_eq_true_eq] at h1 h2
  exact itemKey_inj (le_antisymm h1 h2)

/-- The comparator spelled out lexicographically over the field tuple. -/
theorem itemLe_iff (a b : PathItem) :
    itemLe a b = true ↔
      (pathTypeRank a.path_type < pathTypeRank b.path_type
       ∨ (pathTypeRank a.path_type = pathTypeRank b.path_type
          ∧ (a.name.data < b.name.data
             ∨ (a.name.data = b.name.data
                ∧ (a.mtime < b.mtime
                   ∨ (a.mtime = b.mtime ∧ sizeKey a.size ≤ sizeKey b.size)))))) := by
  simp only [itemLe, decide_eq_true_eq, itemKey, Prod.Lex.le_iff]

theorem sortPaths_perm (l : List PathItem) : (sortPaths l).Perm l :=
  List.mergeSort_perm l itemLe

theorem sortPaths_sorted (l : List PathItem) :
    (sortPaths l).Pairwise (fun a b => itemLe a b = true) :=
  List.sorted_mergeSort itemLe_trans itemLe_total l

/-- Sorting is determined by the multiset of items. -/
theorem sortPaths_eq_of_perm {l l' : List PathItem} (h : l.Perm l') :
    sortPaths l = sortPaths l' := by
  refine @List.eq_of_perm_of_sorted _ (fun a b => itemLe a b = true)
    ⟨fun _ _ ha hb => itemLe_antisymm ha hb⟩ _ _ ?_ ?_ ?_
  · exact ((sortPaths_perm l).trans h).trans (sortPaths_perm l').symm
  · exact sortPaths_sorted l
  · exact sortPaths_sorted l'

/-- The sorted output is the unique sorted permutation of the input. -/
theorem sortPaths_eq_of_sorted {l tgt : List PathItem} (hp : l.Perm tgt)
    (hs : tgt.Pairwise (fun a b => itemLe a b = true)) : sortPaths l = tgt :=
  @List.eq_of_perm_of_sorted _ (fun a b => itemLe a b = true)
    ⟨fun _ _ ha hb => itemLe_antisymm ha hb⟩ _ _
    ((sortPaths_perm l).trans hp) (sortPaths_sorted l) hs

/-- C10: every listing or search response embeds its items sorted by the
derived total order — lexicographic over (kind, name, mtime, size) with
`Dir < SymlinkDir < File < SymlinkFile` — the output is a permutation of
the input, and the output is determined by the multiset of items. -/
theorem c10_listing_sorted_deterministic (args : Args) (k : Key)
    (items : List PathItem) :
    indexPaths (send_index args k items) = sortPaths items
    ∧ (sortPaths items).Pairwise (fun a b => itemLe a b = true)
    ∧ (sortPaths items).Perm items
    ∧ (∀ l' : List PathItem, items.Perm l' → sortPaths items = sortPaths l')
    ∧ (∀ a b : PathItem, pathTypeRank a.path_type < pathTypeRank b.path_type →
         itemLe a b = true ∧ itemLe b a = false)
    ∧ (∀ a b : PathItem, a.path_type = b.path_type → a.name.data < b.name.data →
         itemLe a b = true ∧ itemLe b a = false)
    ∧ (∀ a b : PathItem, a.path_type = b.path_type → a.name = b.name →
         a.mtime < b.mtime → itemLe a b = true ∧ itemLe b a = false)
    ∧ (∀ a b : PathItem, a.path_type = b.path_type → a.name = b.name →
         a.mtime = b.mtime → (itemLe a b = true ↔ sizeKey a.size ≤ sizeKey b.size))
    ∧ pathTypeRank PathType.Dir < pathTypeRank PathType.SymlinkDir
    ∧ pathTypeRank PathType.SymlinkDir < pathTypeRank PathType.File
    ∧ pathTypeRank PathType.File < pathTypeRank PathType.SymlinkFile := by
  refine ⟨rfl, sortPaths_sorted items, sortPaths_perm items,
    fun l' h => sortPaths_eq_of_perm h, ?_, ?_, ?_, ?_, by decide, by decide, by decide⟩
  · intro a b h
    refine ⟨(itemLe_iff a b).mpr (Or.inl h), ?_⟩
    rw [← Bool.not_eq_true, itemLe_iff]
    rintro (hlt | ⟨heq, _⟩) <;> omega
  · intro a b hpt hname
    have hr : pathTypeRank a.path_type = pathTypeRank b.path_type := by rw [hpt]
    refine ⟨(itemLe_iff a b).mpr (Or.inr ⟨hr, Or.inl hname⟩), ?_⟩
    rw [← Bool.not_eq_true, itemLe_iff]
    rintro (h1 | ⟨_, h3 | ⟨h4, _⟩⟩)
    · omega
    · exact lt_asymm hname h3
    · exact (ne_of_lt hname) h4.symm
  · intro a b hpt hname hmt
    have hr : pathTypeRank a.path_type = pathTypeRank b.path_type := by rw [hpt]
    have hd : a.name.data = b.name.data := by rw [hname]
    refine ⟨(itemLe_iff a b).mpr (Or.inr ⟨hr, Or.inr ⟨hd, Or.inl hmt⟩⟩), ?_⟩
    rw [← Bool.not_eq_true, itemLe_iff]
    rintro (h1 | ⟨_, h3 | ⟨_, h5 | ⟨h6, _⟩⟩⟩)
    · omega
    · rw [hd] at h3
      exact absurd h3 (lt_irrefl _)
    · omega
    · omega
  · intro a b hpt hname hmt
    have hr : pathTypeRank a.path_type = pathTypeRank b.path_type := by rw [hpt]
    have hd : a.name.data = b.name.data := by rw [hname]
    rw [itemLe_iff]
    constructor
    · rintro (h1 | ⟨_, h3 | ⟨_, h5 | ⟨_, h7⟩⟩⟩)
      · omega
      · rw [hd] at h3
        exact absurd h3 (lt_irrefl _)
      · omega
      · exact h7
    · intro h
      exact Or.inr ⟨hr, Or.inr ⟨hd, Or.inr ⟨hmt, h⟩⟩⟩

/-- Two sample items for the C10 witness. -/
def exItems : List PathItem := [⟨.File, "a", 0, some 1⟩, ⟨.Dir, "z", 9, none⟩]

/-- Witness for C10 at a concrete item list (a file before a directory on
input, sorted to directory-first on output). -/
theorem c10_listing_sorted_deterministic_witness :
    (indexPaths (send_index exArgs ["srv", "data"] exItems) = sortPaths exItems
     ∧ (sortPaths exItems).Pairwise (fun a b => itemLe a b = true)
     ∧ (sortPaths exItems).Perm exItems
     ∧ (∀ l' : List PathItem, exItems.Perm l' → sortPaths exItems = sortPaths l')
     ∧ (∀ a b : PathItem, pathTypeRank a.path_type < pathTypeRank b.path_type →
          itemLe a b = true ∧ itemLe b a = false)
     ∧ (∀ a b : PathItem, a.path_type = b.path_type → a.name.data < b.name.data →
          itemLe a b = true ∧ itemLe b a = false)
     ∧ (∀ a b : PathItem, a.path_type = b.path_type → a.name = b.name →
          a.mtime < b.mtime → itemLe a b = true ∧ itemLe b a = false)
     ∧ (∀ a b : PathItem, a.path_type = b.path_type → a.name = b.name →
          a.mtime = b.mtime → (itemLe a b = true ↔ sizeKey a.size ≤ sizeKey b.size))
     ∧ pathTypeRank PathType.Dir < pathTypeRank PathType.SymlinkDir
     ∧ pathTypeRank PathType.SymlinkDir < pathTypeRank PathType.File
     ∧ pathTypeRank PathType.File < pathTypeRank PathType.SymlinkFile)
    ∧ sortPaths exItems = [⟨.Dir, "z", 9, none⟩, ⟨.File, "a", 0, some 1⟩] :=
  ⟨c10_listing_sorted_deterministic exArgs ["srv", "data"] exItems,
   sortPaths_eq_of_sorted (by decide) (by decide)⟩

/-- Splitting a list at a separator-free boundary is unambiguous. -/
theorem app_slash_inj :
    ∀ (s₁ s₂ r₁ r₂ : List Char), '/' ∉ s₁ → '/' ∉ s₂ →
      s₁ ++ '/' :: r₁ = s₂ ++ '/' :: r₂ → s₁ = s₂ ∧ r₁ = r₂ := by
  intro s₁
  induction s₁ with
  | nil =>
    intro s₂ r₁ r₂ _ h2 h
    cases s₂ with
    | nil => simpa using h
    | cons c t =>
      exfalso
      simp only [List.nil_append, List.cons_append, List.cons.injEq] at h
      exact h2 (by rw [h.1]; exact List.mem_cons_self _ _)
  | cons c t ih =>
    intro s₂ r₁ r₂ h1 h2 h
    cases s₂ with
    | nil =>
      exfalso
      simp only [List.nil_append, List.cons_append, List.cons.injEq] at h
      exact h1 (by rw [← h.1]; exact List.mem_cons_self _ _)
    | cons c2 t2 =>
      simp only [List.cons_append, List.cons.injEq] at h
      obtain ⟨hc, ht⟩ := h
      obtain ⟨ha, hb⟩ := ih t2 r₁ r₂
        (fun hm => h1 (List.mem_cons_of_mem _ hm))
        (fun hm => h2 (List.mem_cons_of_mem _ hm)) ht
      exact ⟨by rw [hc, ha], hb⟩

/-- `joinComps` is injective on lists of nonempty, separator-free
segments. -/
theorem joinComps_inj :
    ∀ (l₁ l₂ : List (List Char)),
      (∀ s ∈ l₁, s ≠ [] ∧ '/' ∉ s) → (∀ s ∈ l₂, s ≠ [] ∧ '/' ∉ s) →
      joinComps l₁ = joinComps l₂ → l₁ = l₂ := by
  intro l₁
  induction l₁ with
  | nil =>
    intro l₂ _ h2 h
    cases l₂ with
    | nil => rfl
    | cons s t =>
      exfalso
      cases t with
      | nil =>
        have h' : ([] : List Char) = s := h
        exact (h2 s (List.mem_cons_self _ _)).1 h'.symm
      | cons a u =>
        have h' : ([] : List Char) = s ++ '/' :: joinComps (a :: u) := h
        cases s with
        | nil => simp at h'
        | cons x xs => simp at h'
  | cons s t ih =>
    intro l₂ h1 h2 h
    cases t with
    | nil =>
      cases l₂ with
      | nil =>
        exfalso
        have h' : s = ([] : List Char) := h
        exact (h1 s (List.mem_cons_self _ _)).1 h'
      | cons s2 t2 =>
        cases t2 with
        | nil =>
          have h' : s = s2 := h
          rw [h']
        | cons a u =>
          exfalso
          have h' : s = s2 ++ '/' :: joinComps (a :: u) := h
          have : '/' ∈ s := by
            rw [h']
            exact List.mem_append_right _ (List.mem_cons_self _ _)
          exact (h1 s (List.mem_cons_self _ _)).2 this
    | cons b v =>
      cases l₂ with
      | nil =>
        exfalso
        have h' : s ++ '/' :: joinComps (b :: v) = ([] : List Char) := h
        cases s with
        | nil => simp at h'
        | cons x xs => simp at h'
      | cons s2 t2 =>
        cases t2 with
        | nil =>
          exfalso
          have h' : s ++ '/' :: joinComps (b :: v) = s2 := h
          have : '/' ∈ s2 := by
            rw [← h']
            exact List.mem_append_right _ (List.mem_cons_self _ _)
          exact (h2 s2 (List.mem_cons_self _ _)).2 this
        | cons a u =>
          have h' : s ++ '/' :: joinComps (b :: v) = s2 ++ '/' :: joinComps (a :: u) := h
          obtain ⟨hs, hr⟩ := app_slash_inj s s2 _ _
            (h1 s (List.mem_cons_self _ _)).2 (h2 s2 (List.mem_cons_self _ _)).2 h'
          have ht := ih (a :: u)
            (fun x hx => h1 x (List.mem_cons_of_mem _ hx))
            (fun x hx => h2 x (List.mem_cons_of_mem _ hx)) hr
          rw [hs, ht]

/-- `normalize_path` is injective on component lists drawn from a real
filesystem (nonempty, separator-free names). -/
theorem normalize_path_inj {l₁ l₂ : List String}
    (h1 : ∀ s ∈ l₁, s ≠ "" ∧ '/' ∉ s.data)
    (h2 : ∀ s ∈ l₂, s ≠ "" ∧ '/' ∉ s.data)
    (h : normalize_path l₁ = normalize_path l₂) : l₁ = l₂ := by
  unfold normalize_path at h
  have h' : joinComps (l₁.map String.data) = joinComps (l₂.map String.data) := by
    injection h
  have hg1 : ∀ s ∈ l₁.map String.data, s ≠ [] ∧ '/' ∉ s := by
    intro s hsm
    obtain ⟨x, hx, rfl⟩ := List.mem_map.mp hsm
    obtain ⟨hne, hsl⟩ := h1 x hx
    exact ⟨fun hnil => hne (String.ext (by simp [hnil])), hsl⟩
  have hg2 : ∀ s ∈ l₂.map String.data, s ≠ [] ∧ '/' ∉ s := by
    intro s hsm
    obtain ⟨x, hx, rfl⟩ := List.mem_map.mp hsm
    obtain ⟨hne, hsl⟩ := h2 x hx
    exact ⟨fun hnil => hne (String.ext (by simp [hnil])), hsl⟩
  exact List.map_injective_iff.mpr (fun a b hab => String.ext hab)
    (joinComps_inj _ _ hg1 hg2 h')

/-- A successful descriptor is named by the path relative to the base. -/
theorem to_pathitem_name {base k : Key} {e : FsEntry} {it : PathItem}
    (h : to_pathitem base k e = some it) :
    it.name = normalize_path (k.drop base.length) := by
  unfold to_pathitem at h
  cases hs : statE e with
  | none => rw [hs] at h; simp at h
  | some m =>
    cases hl : lstatE e with
    | none => rw [hs, hl] at h; simp at h
    | some k2 =>
      rw [hs, hl] at h
      dsimp only at h
      cases hmt : m.mtime with
      | none => rw [hmt] at h; simp at h
      | some mt =>
        rw [hmt] at h
        simp only [Option.some.injEq] at h
        rw [← h]

/-- Membership in the recursive walk. -/
theorem mem_walkFs {fs : Fs} {dir : Key} {p : Key × FsEntry} :
    p ∈ walkFs fs dir ↔ p ∈ fs ∧ dir <+: p.1 ∧ dir.length < p.1.length := by
  simp [walkFs, List.mem_filter, List.isPrefixOf_iff_prefix, and_assoc]

/-- Relative names are unambiguous across the walk of a well-formed
filesystem. -/
theorem relNameOf_inj_on {fs : Fs} {dir : Key} {q p : Key × FsEntry}
    (hwf : wellFormedFs fs)
    (hq : q ∈ walkFs fs dir) (hp : p ∈ walkFs fs dir)
    (h : relNameOf dir q.1 = relNameOf dir p.1) : q.1 = p.1 := by
  obtain ⟨hqf, hqpre, _⟩ := mem_walkFs.mp hq
  obtain ⟨hpf, hppre, _⟩ := mem_walkFs.mp hp
  obtain ⟨tq, htq⟩ := hqpre
  obtain ⟨tp, htp⟩ := hppre
  rw [relNameOf, relNameOf, ← htq, ← htp, List.drop_left, List.drop_left] at h
  have hgq : ∀ s ∈ tq, s ≠ "" ∧ '/' ∉ s.data := by
    intro s hs
    exact hwf.2 q hqf s (by rw [← htq]; exact List.mem_append_right _ hs)
  have hgp : ∀ s ∈ tp, s ≠ "" ∧ '/' ∉ s.data := by
    intro s hs
    exact hwf.2 p hpf s (by rw [← htp]; exact List.mem_append_right _ hs)
  rw [← htq, ← htp, normalize_path_inj hgq hgp h]

/-- The per-entry test of the search walk, decomposed. -/
theorem queryItems_fun_eq_some {dir : Key} {term : String}
    {q : Key × FsEntry} {it : PathItem}
    (h : (if !(containsSub (lowerList (fileNameOf q.1).data) (lowerList term.data))
            then none
          else if (lstatE q.2).isNone then none
          else to_pathitem dir q.1 q.2) = some it) :
    containsSub (lowerList (fileNameOf q.1).data) (lowerList term.data) = true
    ∧ q.2.lstatOk = true ∧ to_pathitem dir q.1 q.2 = some it := by
  by_cases h1 : containsSub (lowerList (fileNameOf q.1).data) (lowerList term.data)
  · by_cases h2 : q.2.lstatOk
    · simp only [h1, Bool.not_true, Bool.false_eq_true, if_false, lstatE, h2, if_true,
        Option.isNone_some, if_neg] at h
      exact ⟨h1, h2, by simpa [lstatE, h2] using h⟩
    · exfalso
      simp [h1, lstatE, h2] at h
  · exfalso
    simp [h1] at h

/-- C3 counterexample: in directory `d`, the broken symlink `link` matches
the search term `LIN` case-insensitively and its symlink-aware metadata
probe succeeds, yet the search listing does not contain it — its descriptor
construction fails on the link-following metadata probe. -/
theorem c3_counterexample :
    (["srv", "data", "d", "link"], exLinkE) ∈ walkFs exQFs ["srv", "data", "d"]
    ∧ containsSub (lowerList (fileNameOf ["srv", "data", "d", "link"]).data)
        (lowerList "LIN".data) = true
    ∧ (lstatE exLinkE).isSome = true
    ∧ ¬ inIndex (handle_query_dir exArgs exQFs ["srv", "data", "d"] "LIN") "link" := by
  refine ⟨by decide, by decide, by decide, ?_⟩
  have hq : queryItems exQFs ["srv", "data", "d"] "LIN" = [] := by decide
  have hs : indexPaths (handle_query_dir exArgs exQFs ["srv", "data", "d"] "LIN")
      = sortPaths [] := by
    simp [handle_query_dir, send_index, indexPaths, hq]
  have hnil : sortPaths ([] : List PathItem) = [] :=
    sortPaths_eq_of_sorted (List.Perm.refl _) (List.Pairwise.nil)
  intro hcontra
  obtain ⟨it, hit, _⟩ := hcontra
  rw [hs, hnil] at hit
  exact absurd hit (List.not_mem_nil it)

/-- C3 as amended: for every entry the walk reaches under a well-formed
filesystem, the search listing contains an entry of its relative name if
and only if its lowercased file name contains the lowercased term, its
symlink-aware metadata probe succeeds, and its entry descriptor is
buildable (the link-following metadata and the modification time also
resolve). -/
theorem c3_search_membership
    (args : Args) (fs : Fs) (dir : Key) (term : String) (p : Key × FsEntry)
    (hwf : wellFormedFs fs)
    (hp : p ∈ walkFs fs dir) :
    inIndex (handle_query_dir args fs dir term) (relNameOf dir p.1) ↔
      (containsSub (lowerList (fileNameOf p.1).data) (lowerList term.data) = true
       ∧ p.2.lstatOk = true
       ∧ (to_pathitem dir p.1 p.2).isSome = true) := by
  have hmem : ∀ it : PathItem,
      it ∈ indexPaths (handle_query_dir args fs dir term) ↔
        it ∈ queryItems fs dir term := by
    intro it
    have hidx : indexPaths (handle_query_dir args fs dir term)
        = sortPaths (queryItems fs dir term) := rfl
    rw [hidx]
    exact (sortPaths_perm _).mem_iff
  constructor
  · rintro ⟨it, hit, hname⟩
    rw [hmem it] at hit
    obtain ⟨q, hq, hfq⟩ := List.mem_filterMap.mp hit
    obtain ⟨hc, hok, hpi⟩ := queryItems_fun_eq_some hfq
    have hnq : it.name = relNameOf dir q.1 := to_pathitem_name hpi
    have hrel : relNameOf dir q.1 = relNameOf dir p.1 := by rw [← hnq, hname]
    have hkey : q.1 = p.1 := relNameOf_inj_on hwf hq hp hrel
    have hqp : q = p :=
      List.inj_on_of_nodup_map hwf.1 (List.mem_of_mem_filter hq)
        (List.mem_of_mem_filter hp) hkey
    refine ⟨by rwa [hqp] at hc, by rwa [hqp] at hok, ?_⟩
    rw [← hqp]
    simp [hpi]
  · rintro ⟨hc, hok, hsome⟩
    obtain ⟨it, hpi⟩ := Option.isSome_iff_exists.mp hsome
    refine ⟨it, ?_, to_pathitem_name hpi⟩
    rw [hmem it]
    apply List.mem_filterMap.mpr
    refine ⟨p, hp, ?_⟩
    simp [hc, lstatE, hok, hpi]

/-- Witness for C3 on the sample tree: the healthy file `Report.TXT`
matches the term `report` and appears in the search listing. -/
theorem c3_search_membership_witness :
    wellFormedFs exQFs
    ∧ (["srv", "data", "d", "Report.TXT"], exFileE) ∈ walkFs exQFs ["srv", "data", "d"]
    ∧ (inIndex (handle_query_dir exArgs exQFs ["srv", "data", "d"] "report")
         (relNameOf ["srv", "data", "d"]
           (["srv", "data", "d", "Report.TXT"], exFileE).1) ↔
       (containsSub
           (lowerList (fileNameOf (["srv", "data", "d", "Report.TXT"], exFileE).1).data)
           (lowerList "report".data) = true
        ∧ (["srv", "data", "d", "Report.TXT"], exFileE).2.lstatOk = true
        ∧ (to_pathitem ["srv", "data", "d"]
             (["srv", "data", "d", "Report.TXT"], exFileE).1
             (["srv", "data", "d", "Report.TXT"], exFileE).2).isSome = true)) :=
  ⟨by decide, by decide,
   c3_search_membership exArgs exQFs ["srv", "data", "d"] "report"
     (["srv", "data", "d", "Report.TXT"], exFileE) (by decide) (by decide)⟩

end Dufs
